import Mathlib

/-!
Shallow embedding of the codebase-digest directory-processing pipeline:
`src/core/processor.js`, `src/utils/file-detection.js`, `src/utils/encoding.js`,
`src/cli/index.js` and `src/config/defaults.js`.

JavaScript strings are modeled by Lean `String`s, with all string manipulation
performed on their character lists (`String.data`); for the ASCII inputs handled
here the JS UTF-16 length/indexing semantics and the character-list semantics
agree.  External collaborators (the `glob` matcher, the `ignore` gitignore
matcher, the regex comment/whitespace strippers, encoding detection and hashing)
are modeled as explicit function parameters or abstract per-file outcomes, as
the spec classifies them as replaceable collaborators with fixed contracts.
-/

namespace CodebaseDigest

/-- Lexicographic code-point comparison of character lists; the model used here
for JS `localeCompare`-based orderings (ICU collation abstracted to code-point
order, which coincides on ASCII file names). -/
def lexLe : List Char → List Char → Bool
  | [], _ => true
  | _ :: _, [] => false
  | a :: as, b :: bs =>
    if a.toNat < b.toNat then true
    else if b.toNat < a.toNat then false
    else lexLe as bs

/-- ASCII lower-casing of one character (model of JS `toLowerCase`, which the
pipeline only applies to ASCII format names and file extensions). -/
def toLowerChar (c : Char) : Char :=
  if 'A' ≤ c ∧ c ≤ 'Z' then Char.ofNat (c.toNat + 32) else c

/-- ASCII lower-casing of a character list. -/
def lowerChars (cs : List Char) : List Char := cs.map toLowerChar

/-- JS `String.prototype.split` with a single-character separator:
`"".split(s) = [""]`, and a trailing separator yields a trailing empty piece. -/
def splitOnChar (sep : Char) : List Char → List (List Char)
  | [] => [[]]
  | c :: cs =>
    if c = sep then [] :: splitOnChar sep cs
    else
      match splitOnChar sep cs with
      | [] => [[c]]
      | h :: t => (c :: h) :: t

/-- JS `Array.prototype.join` with a single-character separator. -/
def joinWith (sep : Char) : List (List Char) → List Char
  | [] => []
  | [l] => l
  | l :: ls => l ++ sep :: joinWith sep ls

theorem splitOnChar_cons_self (sep : Char) (cs : List Char) :
    splitOnChar sep (sep :: cs) = [] :: splitOnChar sep cs := by
  simp [splitOnChar]

theorem splitOnChar_cons_of_ne (sep c : Char) (cs : List Char) (hne : ¬ c = sep) :
    splitOnChar sep (c :: cs) =
      match splitOnChar sep cs with
      | [] => [[c]]
      | hd :: tl => (c :: hd) :: tl := by
  simp [splitOnChar, hne]

theorem splitOnChar_ne_nil (sep : Char) (cs : List Char) : splitOnChar sep cs ≠ [] := by
  induction cs with
  | nil => simp [splitOnChar]
  | cons c cs ih =>
    by_cases hc : c = sep
    · subst hc
      rw [splitOnChar_cons_self]
      simp
    · rw [splitOnChar_cons_of_ne sep c cs hc]
      cases h : splitOnChar sep cs with
      | nil => simp
      | cons hd tl => simp

theorem sep_not_mem_of_mem_splitOnChar (sep : Char) (cs : List Char) :
    ∀ l ∈ splitOnChar sep cs, sep ∉ l := by
  induction cs with
  | nil =>
    intro l hl
    have hl2 : l = [] := by simpa [splitOnChar] using hl
    simp [hl2]
  | cons c cs ih =>
    intro l hl
    by_cases hc : c = sep
    · subst hc
      rw [splitOnChar_cons_self] at hl
      rcases List.mem_cons.mp hl with h1 | h1
      · simp [h1]
      · exact ih l h1
    · rw [splitOnChar_cons_of_ne sep c cs hc] at hl
      cases hrec : splitOnChar sep cs with
      | nil => exact absurd hrec (splitOnChar_ne_nil sep cs)
      | cons hd tl =>
        rw [hrec] at hl
        rcases List.mem_cons.mp hl with h1 | h1
        · subst h1
          intro hmem
          rcases List.mem_cons.mp hmem with h2 | h2
          · exact hc h2.symm
          · exact ih hd (by rw [hrec]; exact List.mem_cons_self hd tl) h2
        · exact ih l (by rw [hrec]; exact List.mem_cons_of_mem hd h1)

theorem splitOnChar_of_not_mem (sep : Char) (cs : List Char) (h : sep ∉ cs) :
    splitOnChar sep cs = [cs] := by
  induction cs with
  | nil => simp [splitOnChar]
  | cons c cs ih =>
    simp only [List.mem_cons, not_or] at h
    have hne : ¬ (c = sep) := fun hc => h.1 hc.symm
    rw [splitOnChar_cons_of_ne sep c cs hne, ih h.2]

theorem splitOnChar_append (sep : Char) (p cs : List Char) (h : sep ∉ p) :
    splitOnChar sep (p ++ sep :: cs) = p :: splitOnChar sep cs := by
  induction p with
  | nil =>
    rw [List.nil_append, splitOnChar_cons_self]
  | cons c q ih =>
    simp only [List.mem_cons, not_or] at h
    have hne : ¬ (c = sep) := fun hc => h.1 hc.symm
    have hq := ih h.2
    rw [List.cons_append, splitOnChar_cons_of_ne sep c _ hne, hq]

theorem joinWith_cons₂ (sep : Char) (l l2 : List Char) (ls : List (List Char)) :
    joinWith sep (l :: l2 :: ls) = l ++ sep :: joinWith sep (l2 :: ls) := rfl

theorem joinWith_append_single (sep : Char) (xs : List (List Char)) (m : List Char)
    (h : xs ≠ []) : joinWith sep (xs ++ [m]) = joinWith sep xs ++ sep :: m := by
  induction xs with
  | nil => exact absurd rfl h
  | cons l ls ih =>
    cases ls with
    | nil => simp [joinWith]
    | cons l2 ls2 =>
      have hne : l2 :: ls2 ≠ [] := by simp
      have ih2 := ih hne
      rw [List.cons_append] at ih2
      rw [List.cons_append, List.cons_append, joinWith_cons₂, joinWith_cons₂, ih2]
      simp [List.append_assoc]

theorem splitOnChar_joinWith (sep : Char) (parts : List (List Char))
    (hne : parts ≠ []) (hfree : ∀ p ∈ parts, sep ∉ p) :
    splitOnChar sep (joinWith sep parts) = parts := by
  induction parts with
  | nil => exact absurd rfl hne
  | cons p ps ih =>
    cases ps with
    | nil =>
      simp only [joinWith]
      exact splitOnChar_of_not_mem sep p (hfree p (List.mem_cons_self p []))
    | cons q qs =>
      have h1 : joinWith sep (p :: q :: qs) = p ++ sep :: joinWith sep (q :: qs) := rfl
      rw [h1, splitOnChar_append sep p _ (hfree p (List.mem_cons_self p (q :: qs)))]
      rw [ih (by simp) (fun r hr => hfree r (List.mem_cons_of_mem p hr))]

/-- Node `path.extname` semantics on the character list of a path: the suffix of
the basename from its last `.` on, except that a leading dot of the basename does
not count (`".bashrc"` has no extension). -/
def extnameChars (p : List Char) : List Char :=
  let base := (splitOnChar '/' p).getLastD []
  let parts := splitOnChar '.' base
  if parts.length ≥ 2 ∧ ¬ (parts.length = 2 ∧ parts.headD [] = []) then
    '.' :: parts.getLastD []
  else []

/-- Node `path.extname` on strings. -/
def extname (p : String) : String := String.mk (extnameChars p.data)

/-- `path.extname(p).substring(1)`: the extension without the dot, as stored in
a FileRecord (src/core/processor.js:143). -/
def recordExtension (p : String) : String := String.mk ((extnameChars p.data).drop 1)

/-- `path.extname(p).toLowerCase().substring(1)`: the lower-cased extension used
by binary detection (src/utils/file-detection.js:29). -/
def lowerExtension (p : String) : String :=
  String.mk ((lowerChars (extnameChars p.data)).drop 1)

/--
Configuration (src/config/defaults.js merged with overrides).  Field defaults
mirror `defaultConfig`; JS `Number.POSITIVE_INFINITY` for `maxDepth` is modeled
by `none`.  Note that `defaultConfig` defines no `continueOnError` field, so an
unset `continueOnError` is `undefined`, which is falsy where the processor reads
it; hence the default here is `false`.  `maxParallelProcesses` defaults to
`Math.max(1, cpuCount - 1)` at runtime, a machine-dependent positive number; it
is left at `1` here and quantified in the theorems that use it.
-/
structure Config where
  outputFormat : String := "text"
  maxFileSize : Nat := 1048576
  minFileSize : Nat := 0
  ignorePatterns : List String :=
    ["node_modules", ".git", "dist", "build", ".cache", "*.log", "*.lock",
     "package-lock.json", "yarn.lock", "pnpm-lock.yaml", ".DS_Store", "Thumbs.db",
     ".env", ".env.*", "*.min.js", "*.min.css", "*.map", "coverage", ".next",
     ".nuxt", ".output", ".vercel", ".vscode", ".idea"]
  includePatterns : List String := ["**/*"]
  excludePatterns : List String := []
  respectGitignore : Bool := true
  respectNpmignore : Bool := true
  respectDockerignore : Bool := true
  includeFileHash : Bool := false
  includeMimeType : Bool := false
  parallel : Bool := true
  maxParallelProcesses : Nat := 1
  followSymlinks : Bool := false
  maxDepth : Option Nat := none
  binaryFilesAction : String := "skip"
  detectBinary : Bool := true
  skipBinaryFiles : Bool := true
  binaryFileExtensions : List String :=
    ["jpg", "jpeg", "png", "gif", "bmp", "ico", "webp", "tiff", "svg", "mp3",
     "mp4", "wav", "ogg", "webm", "avi", "mov", "wmv", "flv", "pdf", "doc",
     "docx", "xls", "xlsx", "ppt", "pptx", "zip", "tar", "gz", "7z", "rar",
     "exe", "dll", "so", "dylib", "ttf", "otf", "woff", "woff2", "eot"]
  textFileExtensions : List String :=
    ["txt", "md", "markdown", "rst", "adoc", "tex", "js", "jsx", "ts", "tsx",
     "mjs", "cjs", "py", "rb", "php", "java", "c", "cpp", "cs", "go", "rs",
     "swift", "html", "htm", "css", "scss", "sass", "less", "styl", "json",
     "yaml", "yml", "toml", "ini", "xml", "csv", "tsv", "sh", "bash", "zsh",
     "fish", "bat", "cmd", "ps1", "sql", "graphql", "prisma", "env"]
  sortBy : String := "path"
  sortDirection : String := "asc"
  fileGrouping : String := "none"
  fileGroupingDepth : Nat := 1
  fileOrder : List String := []
  directoryOrder : List String := []
  retryCount : Nat := 3
  truncateLineLength : Nat := 0
  skipEmptyFiles : Bool := false
  fileContentPreview : Nat := 0
  fileContentTail : Nat := 0
  commentStripping : Bool := false
  stripWhitespace : Bool := false
  continueOnError : Bool := false
deriving Repr, DecidableEq

/--
Observable filesystem behavior of one path during a run.  `statError` is the
failure of `fs.stat`; `bytes` are the raw file bytes (used by the binary-content
sniff and the binary branches); `sampleReadError` is a failure of the
open/read of the 4096-byte sniff sample; `rawRead` is the outcome of the whole
`fs.readFile` used by the base64/hexdump branches; `decoded` is the end-to-end
outcome of `readFileWithEncoding` (encoding detection and decoding are external
collaborators, so only their result is modeled, with the error message already
wrapped as `readFileWithEncoding` wraps it); `hash` and `mime` are the outcomes
of `calculateFileHash` and `getFileMimeType`.
-/
structure FsFile where
  statError : Option String := none
  size : Nat := 0
  mtime : Nat := 0
  birthtime : Nat := 0
  bytes : List Nat := []
  sampleReadError : Option String := none
  rawRead : Except String (List Nat) := .ok []
  decoded : Except String String := .ok ""
  hash : Except String String := .ok ""
  mime : Except String String := .ok ""
deriving Repr

/-- A byte is suspicious for the binary sniff when it is NUL or a control
character other than tab (9), LF (10), CR (13)
(src/utils/file-detection.js:63). -/
def isSuspiciousByte (b : Nat) : Bool :=
  b == 0 || (b < 32 && !(b == 9 || b == 10 || b == 13))

/-- Content analysis of the first 4096 bytes: binary when more than 10% of the
sampled bytes are suspicious; an empty or unreadable sample counts as text
(src/utils/file-detection.js:47-78). -/
def contentSniffsBinary (f : FsFile) : Bool :=
  match f.sampleReadError with
  | some _ => false
  | none =>
    let sample := f.bytes.take 4096
    if sample.length == 0 then false
    else 10 * (sample.filter isSuspiciousByte).length > sample.length

/--
`isBinaryFile(filePath, config)` (src/utils/file-detection.js:26-84).
The `config?` parameter models the JS argument, which call sites may omit:
`processFile` calls `isBinaryFile(filePath)` with no config
(src/core/processor.js:134), so `config` is `undefined` and the very first
access `config.binaryFileExtensions` throws a TypeError that the function's own
outer catch turns into `false` (src/utils/file-detection.js:79-83); the `none`
branch models exactly that.
-/
def isBinaryFile (filePath : String) (f : FsFile) (config? : Option Config) : Bool :=
  match config? with
  | none => false
  | some config =>
    let ext := lowerExtension filePath
    if config.binaryFileExtensions.contains ext then true
    else if config.textFileExtensions.contains ext then false
    else contentSniffsBinary f

/-- Result of the per-file classification decision. -/
structure ClassifyResult where
  shouldProcess : Bool
  reason : String
deriving Repr, DecidableEq

/--
`shouldProcessFile(filePath, relativePath, config)`
(src/utils/file-detection.js:95-147): empty-file policy, strict size bounds,
then binary policy; any stat error during classification is caught and turned
into a rejection.  This call site passes `config` to `isBinaryFile`
(src/utils/file-detection.js:126), unlike `processFile`.
-/
def shouldProcessFile (f : FsFile) (filePath : String) (config : Config) : ClassifyResult :=
  match f.statError with
  | some msg => { shouldProcess := false, reason := "Error checking file: " ++ msg }
  | none =>
    if config.skipEmptyFiles && f.size == 0 then
      { shouldProcess := false, reason := "File is empty and skipEmptyFiles is true" }
    else if f.size < config.minFileSize then
      { shouldProcess := false
        reason := "File size (" ++ toString f.size ++ " bytes) is below minimum ("
          ++ toString config.minFileSize ++ " bytes)" }
    else if f.size > config.maxFileSize then
      { shouldProcess := false
        reason := "File size (" ++ toString f.size ++ " bytes) exceeds maximum ("
          ++ toString config.maxFileSize ++ " bytes)" }
    else if config.detectBinary && isBinaryFile filePath f (some config)
        && config.skipBinaryFiles then
      { shouldProcess := false, reason := "File is binary and skipBinaryFiles is true" }
    else
      { shouldProcess := true, reason := "All checks passed" }

/-- One lowercase hexadecimal digit. -/
def hexDigitChar (n : Nat) : Char :=
  match n % 16 with
  | 0 => '0' | 1 => '1' | 2 => '2' | 3 => '3' | 4 => '4' | 5 => '5' | 6 => '6'
  | 7 => '7' | 8 => '8' | 9 => '9' | 10 => 'a' | 11 => 'b' | 12 => 'c' | 13 => 'd'
  | 14 => 'e' | _ => 'f'

/-- Digit accumulation for `toHex`, with the number itself as ample fuel. -/
def toHexGo : Nat → Nat → List Char → List Char
  | 0, _, acc => acc
  | fuel + 1, n, acc =>
    if n = 0 then acc else toHexGo fuel (n / 16) (hexDigitChar (n % 16) :: acc)

/-- JS `n.toString(16)`: lowercase hexadecimal digits. -/
def toHex (n : Nat) : String :=
  if n = 0 then "0" else String.mk (toHexGo n n [])

/-- JS `s.padStart(w, "0")`. -/
def padStartZero (w : Nat) (s : String) : String :=
  String.mk (List.replicate (w - s.data.length) '0' ++ s.data)

/-- ASCII column cell of the hexdump: printable bytes 32..126 as themselves,
everything else as a dot (src/utils/encoding.js:126). -/
def asciiChar (b : Nat) : Char :=
  if 32 ≤ b ∧ b ≤ 126 then Char.ofNat b else '.'

/-- The `|...|` ASCII column of one hexdump line. -/
def asciiColumn (lineBytes : List Nat) : String := String.mk (lineBytes.map asciiChar)

/-- The space-separated hex cells of one hexdump line: a 2-digit cell per byte
and a 2-space placeholder for each missing trailing byte
(src/utils/encoding.js:111-118). -/
def hexCells (bytesPerLine : Nat) (lineBytes : List Nat) : String :=
  String.mk (joinWith ' '
    ((List.range bytesPerLine).map (fun j =>
      match lineBytes.get? j with
      | some b => (padStartZero 2 (toHex b)).data
      | none => [' ', ' '])))

/-- One line of the hexdump (src/utils/encoding.js:103-132): 8-digit zero-padded
offset, `": "`, the hex cells plus a trailing space, `" |"`, the ASCII column,
`"|"`. -/
def hexLine (bytesPerLine offset : Nat) (lineBytes : List Nat) : String :=
  padStartZero 8 (toHex offset) ++ ": " ++ hexCells bytesPerLine lineBytes ++ " "
    ++ " |" ++ asciiColumn lineBytes ++ "|"

/-- The lines of `createHexdump`: `ceil(length / bytesPerLine)` lines, the i-th
over bytes `[i*bytesPerLine, (i+1)*bytesPerLine)`. -/
def hexdumpLines (buffer : List Nat) (bytesPerLine : Nat) : List String :=
  (List.range ((buffer.length + bytesPerLine - 1) / bytesPerLine)).map
    (fun i => hexLine bytesPerLine (i * bytesPerLine)
      ((buffer.drop (i * bytesPerLine)).take bytesPerLine))

/-- `createHexdump(buffer, bytesPerLine = 16)` (src/utils/encoding.js:99-136):
the lines joined by newlines, with no trailing newline. -/
def createHexdump (buffer : List Nat) (bytesPerLine : Nat := 16) : String :=
  String.mk (joinWith '\n' ((hexdumpLines buffer bytesPerLine).map (·.data)))

/-- The standard base64 alphabet (model of `Buffer.toString("base64")`). -/
def base64Alphabet : List Char :=
  "ABCDEFGHIJKLMNOPQRSTUVWXYZabcdefghijklmnopqrstuvwxyz0123456789+/".data

/-- One base64 output character. -/
def base64Digit (n : Nat) : Char := base64Alphabet.getD (n % 64) 'A'

/-- Base64 encoding of a byte list, with `=` padding. -/
def base64Chars : List Nat → List Char
  | [] => []
  | [a] =>
    [base64Digit (a / 4), base64Digit ((a % 4) * 16), '=', '=']
  | [a, b] =>
    [base64Digit (a / 4), base64Digit ((a % 4) * 16 + b / 16),
     base64Digit ((b % 16) * 4), '=']
  | a :: b :: c :: rest =>
    base64Digit (a / 4) :: base64Digit ((a % 4) * 16 + b / 16)
      :: base64Digit ((b % 16) * 4 + c / 64) :: base64Digit (c % 64)
      :: base64Chars rest

/-- `buffer.toString("base64")`. -/
def base64Encode (bytes : List Nat) : String := String.mk (base64Chars bytes)

/-- Step 1, line-length truncation (src/core/processor.js:277-286): every line
longer than the limit is cut and suffixed `"..."`. -/
def truncateStep (limit : Nat) (content : List Char) : List Char :=
  if limit > 0 then
    joinWith '\n' ((splitOnChar '\n' content).map (fun line =>
      if line.length > limit then line.take limit ++ ('.' :: '.' :: '.' :: [])
      else line))
  else content

/-- Step 2, preview windowing (src/core/processor.js:289-295): keep the first
`preview` lines of the current content and append a `"... [truncated]"` line
when more existed. -/
def previewStep (preview : Nat) (content : List Char) : List Char :=
  if preview > 0 then
    let lines := splitOnChar '\n' content
    let kept := joinWith '\n' (lines.take preview)
    if lines.length > preview then kept ++ '\n' :: "... [truncated]".data
    else kept
  else content

/-- Step 3, tail windowing (src/core/processor.js:298-304): re-split the
*current* (possibly already preview-truncated) content, and only when its line
count exceeds `preview + tail` append the middle-section marker and the last
`tail` lines of that current content. -/
def tailStep (preview tail : Nat) (content : List Char) : List Char :=
  if tail > 0 then
    let lines := splitOnChar '\n' content
    if lines.length > preview + tail then
      content ++ ('\n' :: "... [truncated middle section]".data)
        ++ ('\n' :: joinWith '\n' (lines.drop (lines.length - tail)))
    else content
  else content

/--
`applyContentTransformations` (src/core/processor.js:275-323) on the character
list of the content.  The regex-based comment stripper and whitespace stripper
(steps 4 and 5) are external regex-engine behavior and are passed in as the
functions `stripC` and `stripW`; the claims below only exercise configurations
with those toggles off.  Every step splits the *current* content on `"\n"` and
joins it back, exactly as the source does.
-/
def applyCT (stripC stripW : List Char → List Char) (config : Config)
    (content : List Char) : List Char :=
  let c1 := truncateStep config.truncateLineLength content
  let c2 := previewStep config.fileContentPreview c1
  let c3 := tailStep config.fileContentPreview config.fileContentTail c2
  let c4 := if config.commentStripping then stripC c3 else c3
  if config.stripWhitespace then stripW c4 else c4

/-- `applyContentTransformations` on strings. -/
def applyContentTransformations (stripC stripW : List Char → List Char)
    (config : Config) (content : String) : String :=
  String.mk (applyCT stripC stripW config content.data)

/--
FileRecord (spec §3): the per-file result object built by `processFile`.
Fields that the error branch of `processFile` leaves unset
(src/core/processor.js:177-182) are `Option`s defaulting to `none`.
-/
structure FileRecord where
  path : String := ""
  size : Nat := 0
  modified? : Option Nat := none
  created? : Option Nat := none
  extension? : Option String := none
  isBinary? : Option Bool := none
  hash? : Option String := none
  mimeType? : Option String := none
  content : String := ""
  encoding? : Option String := none
  error? : Option String := none
deriving Repr, DecidableEq

/-- `processTextFile` (src/core/processor.js:255-267): decode, then transform;
a read/decode failure is caught *here*, populating `content` with a placeholder
and `error` with the message — it is never rethrown and never consults
`continueOnError`. -/
def processTextFile (stripC stripW : List Char → List Char) (f : FsFile)
    (config : Config) (d : FileRecord) : FileRecord :=
  match f.decoded with
  | .ok content =>
    { d with content := applyContentTransformations stripC stripW config content }
  | .error msg =>
    { d with content := "[Error reading file: " ++ msg ++ "]", error? := some msg }

/-- `processBinaryFile` (src/core/processor.js:195-244): dispatch on
`binaryFilesAction`, with read errors caught locally and an unknown action
behaving as skip (after a warning). -/
def processBinaryFile (f : FsFile) (config : Config) (d : FileRecord) : FileRecord :=
  match config.binaryFilesAction with
  | "skip" => { d with content := "[Binary file]" }
  | "include" =>
    match f.rawRead with
    | .ok bytes => { d with content := base64Encode bytes, encoding? := some "base64" }
    | .error msg =>
      { d with content := "[Error reading binary file: " ++ msg ++ "]"
               error? := some msg }
  | "hexdump" =>
    match f.rawRead with
    | .ok bytes => { d with content := createHexdump bytes 16, encoding? := some "hexdump" }
    | .error msg =>
      { d with content := "[Error creating hexdump: " ++ msg ++ "]"
               error? := some msg }
  | _ => { d with content := "[Binary file]" }

/-- The outer catch of `processFile` (src/core/processor.js:169-183): rethrow
when `continueOnError` is falsy, otherwise an error FileRecord with only
`path`, `size: 0`, `error` and a placeholder `content`. -/
def handleProcessFileError (config : Config) (relativePath msg : String) :
    Except String (Option FileRecord) :=
  if !config.continueOnError then .error msg
  else .ok (some { path := relativePath, size := 0, error? := some msg
                   content := "[Error reading file: " ++ msg ++ "]" })

/--
`processFile(filePath, relativePath, config)` (src/core/processor.js:110-184)
over the filesystem model `fsm`.  `none` means the file was skipped by the
Classifier.  Failures that reach the outer catch are those of the metadata
helpers (`calculateFileHash`, `getFileMimeType`) and of `fs.stat`; read/decode
failures are caught inside `processTextFile`/`processBinaryFile` and produce a
record that keeps the stat size.  Note `isBinary` is computed by calling
`isBinaryFile(filePath)` with the `config` argument omitted
(src/core/processor.js:134), modeled by passing `none`.
-/
def processFile (stripC stripW : List Char → List Char) (fsm : String → FsFile)
    (relativePath : String) (config : Config) : Except String (Option FileRecord) :=
  let f := fsm relativePath
  if !(shouldProcessFile f relativePath config).shouldProcess then .ok none
  else
    match f.statError with
    | some msg => handleProcessFileError config relativePath msg
    | none =>
      match (if config.includeFileHash then f.hash.map some else .ok none :
          Except String (Option String)) with
      | .error msg => handleProcessFileError config relativePath msg
      | .ok hash? =>
        match (if config.includeMimeType then f.mime.map some else .ok none :
            Except String (Option String)) with
        | .error msg => handleProcessFileError config relativePath msg
        | .ok mime? =>
          let isBin := if config.detectBinary then isBinaryFile relativePath f none
            else false
          let d : FileRecord :=
            { path := relativePath, size := f.size, modified? := some f.mtime
              created? := some f.birthtime
              extension? := some (recordExtension relativePath)
              isBinary? := some isBin, hash? := hash?, mimeType? := mime? }
          .ok (some (if isBin then processBinaryFile f config d
            else processTextFile stripC stripW f config d))

/-- Contents of the optional root-level ignore files; `none` models a missing
or unreadable file, whose patterns are skipped with a warning
(src/core/processor.js:337-376). -/
structure IgnoreFiles where
  gitignore : Option (List String) := none
  npmignore : Option (List String) := none
  dockerignore : Option (List String) := none

/-- `loadIgnorePatterns(directory, config)` (src/core/processor.js:333-383):
the pattern list accumulated into the `ignore` instance, in source order —
`.gitignore`, `.npmignore`, `.dockerignore` (each only when its respect-flag is
set and the file is readable), then always `config.ignorePatterns`.  Note that
`config.excludePatterns` is *not* added here.  The gitignore matching semantics
of the `ignore` package is the external parameter `igMatches` below. -/
def loadIgnorePatterns (dirFiles : IgnoreFiles) (config : Config) : List String :=
  (if config.respectGitignore then dirFiles.gitignore.getD [] else [])
    ++ (if config.respectNpmignore then dirFiles.npmignore.getD [] else [])
    ++ (if config.respectDockerignore then dirFiles.dockerignore.getD [] else [])
    ++ config.ignorePatterns

/-- One `glob(pattern, {ignore: excludePatterns, ...})` call
(src/core/processor.js:400-406), by the glob library's contract: the files of
the tree matching `pattern` and matching no exclude pattern.  `globMatch` is the
external glob matcher. -/
def globExpand (globMatch : String → String → Bool) (allFiles : List String)
    (pattern : String) (excludePatterns : List String) : List String :=
  allFiles.filter (fun f =>
    globMatch pattern f && !(excludePatterns.any (fun e => globMatch e f)))

/-- `file.split(path.sep).length` (src/core/processor.js:427). -/
def pathDepth (file : String) : Nat := (splitOnChar '/' file.data).length

/-- The `depth > config.maxDepth` test, with `none` as `Infinity`. -/
def exceedsMaxDepth (maxDepth : Option Nat) (depth : Nat) : Bool :=
  match maxDepth with
  | none => false
  | some m => depth > m

/-- `[...new Set(files)]` (src/core/processor.js:415): deduplication keeping
first occurrences. -/
def dedupFirst : List String → List String
  | [] => []
  | x :: xs => x :: dedupFirst (xs.filter (fun y => y != x))
termination_by l => l.length
decreasing_by
  simp only [List.length_cons]
  exact Nat.lt_succ_of_le (List.length_filter_le _ _)

/-- `getDirectoryPriority` (src/core/processor.js:528-536): index of the first
configured directory the file falls under, or the list length. -/
def getDirectoryPriority (config : Config) (file : String) : Nat :=
  match (List.range config.directoryOrder.length).find? (fun i =>
      List.isPrefixOf ((config.directoryOrder.getD i "").data ++ ['/']) file.data) with
  | some i => i
  | none => config.directoryOrder.length

/-- The main comparator of `sortFiles` (src/core/processor.js:459-496) as a
boolean `le`, with `localeCompare` modeled by code-point order and stats taken
from the filesystem model. -/
def sortFilesLe (fsm : String → FsFile) (config : Config) (a b : String) : Bool :=
  match config.sortBy with
  | "size" =>
    if config.sortDirection = "asc" then decide ((fsm a).size ≤ (fsm b).size)
    else decide ((fsm b).size ≤ (fsm a).size)
  | "extension" =>
    if config.sortDirection = "asc" then
      lexLe (lowerChars (extnameChars a.data)) (lowerChars (extnameChars b.data))
    else lexLe (lowerChars (extnameChars b.data)) (lowerChars (extnameChars a.data))
  | "modified" =>
    if config.sortDirection = "asc" then decide ((fsm a).mtime ≤ (fsm b).mtime)
    else decide ((fsm b).mtime ≤ (fsm a).mtime)
  | _ =>
    if config.sortDirection = "asc" then lexLe a.data b.data
    else lexLe b.data a.data

/-- The `fileOrder` prioritization stage (src/core/processor.js:499-520):
partition into listed and unlisted files, sort the listed ones by their index in
`fileOrder`, and put them first. -/
def applyFileOrder (config : Config) (files : List String) : List String :=
  if config.fileOrder.length > 0 then
    let priorityFiles := files.filter (fun f => config.fileOrder.contains f)
    let remainingFiles := files.filter (fun f => !config.fileOrder.contains f)
    (priorityFiles.mergeSort (fun a b =>
      decide (config.fileOrder.indexOf a ≤ config.fileOrder.indexOf b)))
      ++ remainingFiles
  else files

/-- The `directoryOrder` prioritization stage (src/core/processor.js:523-550):
stable re-sort by directory priority, tie-broken by the pre-sort index. -/
def applyDirectoryOrder (config : Config) (files : List String) : List String :=
  if config.directoryOrder.length > 0 then
    files.mergeSort (fun a b =>
      let pa := getDirectoryPriority config a
      let pb := getDirectoryPriority config b
      if pa = pb then decide (files.indexOf a ≤ files.indexOf b)
      else decide (pa ≤ pb))
  else files

/-- `sortFiles(files, directory, config)` (src/core/processor.js:453-551):
main sort, then the `fileOrder` stage, then the `directoryOrder` stage.
JS `Array.prototype.sort` is stable (ES2019), as is `List.mergeSort`. -/
def sortFiles (fsm : String → FsFile) (config : Config) (files : List String) :
    List String :=
  applyDirectoryOrder config
    (applyFileOrder config (files.mergeSort (sortFilesLe fsm config)))

/-- The deduplicated union of all include-pattern glob expansions
(src/core/processor.js:398-415). -/
def globbedFiles (globMatch : String → String → Bool) (allFiles : List String)
    (config : Config) : List String :=
  dedupFirst ((config.includePatterns.map
    (fun pattern => globExpand globMatch allFiles pattern config.excludePatterns)).flatten)

/-- The filter stage of `findMatchingFiles` (src/core/processor.js:419-436):
drop a file when `config.respectGitignore && ig.ignores(file)`, or when its
depth exceeds `maxDepth`. -/
def discoveredPreSort (globMatch : String → String → Bool)
    (igMatches : List String → String → Bool) (allFiles : List String)
    (dirFiles : IgnoreFiles) (config : Config) : List String :=
  (globbedFiles globMatch allFiles config).filter (fun file =>
    !(config.respectGitignore && igMatches (loadIgnorePatterns dirFiles config) file)
      && !(exceedsMaxDepth config.maxDepth (pathDepth file)))

/--
`findMatchingFiles(directory, ig, config)` (src/core/processor.js:394-444):
glob expansion of every include pattern (with `excludePatterns` as glob-level
exclusions), deduplication, the ignore/depth filter, and finally `sortFiles`.
`globMatch` is the external glob matcher over the directory tree `allFiles`;
`igMatches` is the external gitignore matcher of the `ignore` package, applied
to the loaded pattern list.
-/
def findMatchingFiles (globMatch : String → String → Bool)
    (igMatches : List String → String → Bool) (fsm : String → FsFile)
    (allFiles : List String) (dirFiles : IgnoreFiles) (config : Config) :
    List String :=
  sortFiles fsm config (discoveredPreSort globMatch igMatches allFiles dirFiles config)

/-- `Math.ceil(files.length / config.maxParallelProcesses)`
(src/core/processor.js:572). -/
def chunkSizeOf (config : Config) (n : Nat) : Nat :=
  (n + config.maxParallelProcesses - 1) / config.maxParallelProcesses

/-- Contiguous slicing into chunks of `size` (src/core/processor.js:574-576),
with the list length as recursion fuel (each step consumes at least one element
whenever `size ≥ 1`, which holds at every reachable call). -/
def chunkGo (size : Nat) : Nat → List String → List (List String)
  | _, [] => []
  | 0, xs => [xs]
  | fuel + 1, x :: xs => ((x :: xs).take size) :: chunkGo size fuel ((x :: xs).drop size)

/-- The chunks `files.slice(i, i + chunkSize)` for `i = 0, chunkSize, ...`. -/
def chunkList (size : Nat) (xs : List String) : List (List String) :=
  chunkGo size xs.length xs

/-- One chunk's sequential loop (src/core/processor.js:580-586 and 593-599):
process each file in order, appending every non-null record; a thrown per-file
error (possible only when `continueOnError` is falsy) aborts the loop. -/
def processChunk (stripC stripW : List Char → List Char) (fsm : String → FsFile)
    (config : Config) : List String → Except String (List FileRecord)
  | [] => .ok []
  | file :: rest =>
    match processFile stripC stripW fsm file config with
    | .error e => .error e
    | .ok r? =>
      match processChunk stripC stripW fsm config rest with
      | .error e => .error e
      | .ok rs =>
        .ok (match r? with
          | some r => r :: rs
          | none => rs)

/-- The chunk loops run under `Promise.all` (src/core/processor.js:578-588):
all chunks' records, any chunk's thrown error rejecting the whole batch. -/
def processChunksAll (stripC stripW : List Char → List Char) (fsm : String → FsFile)
    (config : Config) : List (List String) → Except String (List FileRecord)
  | [] => .ok []
  | chunk :: rest =>
    match processChunk stripC stripW fsm config chunk with
    | .error e => .error e
    | .ok rs =>
      match processChunksAll stripC stripW fsm config rest with
      | .error e => .error e
      | .ok rss => .ok (rs ++ rss)

/--
`processFiles(directory, files, config)` (src/core/processor.js:562-603).
Parallel mode splits the list into `maxParallelProcesses` contiguous chunks and
runs them concurrently, each chunk appending into the shared result array; the
order in which concurrent chunks interleave their appends is
scheduling-dependent, so this model returns the canonical chunk-order
concatenation — every interleaving is a permutation of it, with the same set of
records.  Sequential mode (also taken for fewer than two files) preserves input
order exactly.
-/
def processFiles (stripC stripW : List Char → List Char) (fsm : String → FsFile)
    (config : Config) (files : List String) : Except String (List FileRecord) :=
  if config.parallel && files.length > 1 then
    processChunksAll stripC stripW fsm config
      (chunkList (chunkSizeOf config files.length) files)
  else
    processChunk stripC stripW fsm config files

/-- JS `a || b` on strings: `b` when `a` is empty (falsy). -/
def jsOrElse (a b : String) : String := if a = "" then b else a

/--
The group key of one record in `groupFiles` (src/core/processor.js:617-645).
In `language` mode the source evaluates `languageMap(extA)`
(src/core/processor.js:642), but no `languageMap` is imported into the module
(and the `languageMap` exported by src/config/language-map.js is an object, not
a function), so the comparator throws a ReferenceError; the `Except.error`
models that throw.  A `fileGrouping` value outside the three cases leaves the
keys `undefined` and `undefined.localeCompare` throws a TypeError.
-/
def groupKey (config : Config) (r : FileRecord) : Except String String :=
  match config.fileGrouping with
  | "extension" => .ok (jsOrElse (recordExtension r.path) "no-extension")
  | "directory" =>
    let parts := splitOnChar '/' r.path.data
    .ok (jsOrElse
      (String.mk (joinWith '/' (parts.take (min config.fileGroupingDepth (parts.length - 1)))))
      ".")
  | "language" => .error "ReferenceError: languageMap is not defined"
  | _ => .error "TypeError: groupA is undefined"

/-- `groupFiles(fileContents, config)` (src/core/processor.js:611-649): stable
re-sort of the records by their group key.  With fewer than two records the JS
sort never invokes the comparator, so no key (and no throw) is evaluated; with
two or more, every comparison evaluates both keys, so any key error surfaces. -/
def groupFiles (config : Config) (records : List FileRecord) :
    Except String (List FileRecord) :=
  match records with
  | [] => .ok records
  | [_] => .ok records
  | _ => do
    let keyed ← records.mapM (fun r => do
      let k ← groupKey config r
      return (k, r))
    return (keyed.mergeSort (fun a b => lexLe a.1.data b.1.data)).map (·.2)

/-- `formatOutput(fileContents, config)` (src/core/processor.js:658-676):
switch on `config.outputFormat.toLowerCase()` over exactly the four cases
`"text"`, `"json"`, `"markdown"`, `"tree"`; every other value (including
`"csv"`, `"html"` and `"xml"`) hits the default branch, which logs a warning
and renders with the text formatter.  The renderers themselves are external
collaborators, passed as functions. -/
def formatOutput (fText fJson fMarkdown fTree : List FileRecord → Config → String)
    (records : List FileRecord) (config : Config) : String :=
  match String.mk (lowerChars config.outputFormat.data) with
  | "text" => fText records config
  | "json" => fJson records config
  | "markdown" => fMarkdown records config
  | "tree" => fTree records config
  | _ => fText records config

/-- The retry loop of `processWithRetry` (src/cli/index.js:384-413), returning
the result together with the number of attempts made.  `attempt i` is the
outcome of the (i+1)-th `processDirectory` invocation; `fuel` is the number of
retries still allowed.  The fixed `retryDelay` wait between attempts is
real-time behavior with no observable effect on the result and is not
modeled. -/
def retryGo (attempt : Nat → Except String α) : Nat → Nat → Except String α × Nat
  | fuel, i =>
    match attempt i with
    | .ok v => (.ok v, i + 1)
    | .error e =>
      match fuel with
      | 0 => (.error e, i + 1)
      | f + 1 => retryGo attempt f (i + 1)

/-- `processWithRetry(dirPath, config)`: up to `1 + retryCount` attempts, first
success returned, last error surfaced. -/
def processWithRetry (attempt : Nat → Except String α) (retryCount : Nat) :
    Except String α :=
  (retryGo attempt retryCount 0).1

/-- The number of times `processWithRetry` invokes the pipeline. -/
def processWithRetryCalls (attempt : Nat → Except String α) (retryCount : Nat) : Nat :=
  (retryGo attempt retryCount 0).2

/-! ### Supporting lemmas -/

theorem string_data_append (a b : String) : (a ++ b).data = a.data ++ b.data := rfl

theorem mem_dedupFirst : ∀ (l : List String) (a : String), a ∈ dedupFirst l ↔ a ∈ l
  | [], a => by simp [dedupFirst]
  | x :: xs, a => by
    rw [dedupFirst]
    constructor
    · intro h
      rcases List.mem_cons.mp h with h1 | h1
      · exact h1 ▸ List.mem_cons_self x xs
      · have h2 := (mem_dedupFirst (xs.filter (fun y => y != x)) a).mp h1
        exact List.mem_cons_of_mem x (List.mem_filter.mp h2).1
    · intro h
      rcases List.mem_cons.mp h with h1 | h1
      · exact h1 ▸ List.mem_cons_self x _
      · by_cases hax : a = x
        · exact hax ▸ List.mem_cons_self x _
        · exact List.mem_cons_of_mem x ((mem_dedupFirst _ a).mpr
            (List.mem_filter.mpr ⟨h1, by simp [bne_iff_ne, hax]⟩))
termination_by l => l.length
decreasing_by
  all_goals
    simp only [List.length_cons]
    exact Nat.lt_succ_of_le (List.length_filter_le _ _)

theorem nodup_dedupFirst : ∀ (l : List String), (dedupFirst l).Nodup
  | [] => by simp [dedupFirst]
  | x :: xs => by
    rw [dedupFirst]
    refine List.nodup_cons.mpr ⟨?_, nodup_dedupFirst _⟩
    intro hmem
    have h2 := (List.mem_filter.mp ((mem_dedupFirst _ x).mp hmem)).2
    simp at h2
termination_by l => l.length
decreasing_by
  simp only [List.length_cons]
  exact Nat.lt_succ_of_le (List.length_filter_le _ _)

theorem applyFileOrder_perm (config : Config) (l : List String) :
    (applyFileOrder config l).Perm l := by
  unfold applyFileOrder
  by_cases h : config.fileOrder.length > 0
  · rw [if_pos h]
    exact ((List.mergeSort_perm _ _).append_right _).trans (List.filter_append_perm _ l)
  · rw [if_neg h]

theorem applyDirectoryOrder_perm (config : Config) (l : List String) :
    (applyDirectoryOrder config l).Perm l := by
  unfold applyDirectoryOrder
  by_cases h : config.directoryOrder.length > 0
  · rw [if_pos h]
    exact List.mergeSort_perm _ _
  · rw [if_neg h]

theorem sortFiles_perm (fsm : String → FsFile) (config : Config) (files : List String) :
    (sortFiles fsm config files).Perm files := by
  unfold sortFiles
  exact ((applyDirectoryOrder_perm config _).trans
    (applyFileOrder_perm config _)).trans (List.mergeSort_perm _ _)

theorem nodup_sortFiles (fsm : String → FsFile) (config : Config) (files : List String)
    (h : files.Nodup) : (sortFiles fsm config files).Nodup :=
  ((sortFiles_perm fsm config files).nodup_iff).mpr h

theorem mem_findMatchingFiles (globMatch : String → String → Bool)
    (igMatches : List String → String → Bool) (fsm : String → FsFile)
    (allFiles : List String) (dirFiles : IgnoreFiles) (config : Config)
    (file : String) :
    file ∈ findMatchingFiles globMatch igMatches fsm allFiles dirFiles config ↔
      (file ∈ globbedFiles globMatch allFiles config
        ∧ (config.respectGitignore && igMatches (loadIgnorePatterns dirFiles config) file)
            = false
        ∧ exceedsMaxDepth config.maxDepth (pathDepth file) = false) := by
  unfold findMatchingFiles discoveredPreSort
  rw [(sortFiles_perm fsm config _).mem_iff, List.mem_filter]
  constructor
  · rintro ⟨h1, h2⟩
    rw [Bool.and_eq_true, Bool.not_eq_true', Bool.not_eq_true'] at h2
    exact ⟨h1, h2.1, h2.2⟩
  · rintro ⟨h1, h2, h3⟩
    refine ⟨h1, ?_⟩
    rw [Bool.and_eq_true, Bool.not_eq_true', Bool.not_eq_true']
    exact ⟨h2, h3⟩

theorem nodup_findMatchingFiles (globMatch : String → String → Bool)
    (igMatches : List String → String → Bool) (fsm : String → FsFile)
    (allFiles : List String) (dirFiles : IgnoreFiles) (config : Config) :
    (findMatchingFiles globMatch igMatches fsm allFiles dirFiles config).Nodup := by
  unfold findMatchingFiles discoveredPreSort
  exact nodup_sortFiles _ _ _ ((nodup_dedupFirst _).filter _)

theorem processTextFile_path (stripC stripW : List Char → List Char) (f : FsFile)
    (config : Config) (d : FileRecord) :
    (processTextFile stripC stripW f config d).path = d.path := by
  unfold processTextFile
  cases f.decoded <;> rfl

theorem processBinaryFile_path (f : FsFile) (config : Config) (d : FileRecord) :
    (processBinaryFile f config d).path = d.path := by
  unfold processBinaryFile
  split <;> first
    | rfl
    | (cases f.rawRead <;> rfl)

theorem processFile_skip (stripC stripW : List Char → List Char)
    (fsm : String → FsFile) (p : String) (config : Config)
    (h : (shouldProcessFile (fsm p) p config).shouldProcess = false) :
    processFile stripC stripW fsm p config = .ok none := by
  unfold processFile
  dsimp only
  rw [h]
  rfl

theorem processFile_accept (stripC stripW : List Char → List Char)
    (fsm : String → FsFile) (p : String) (config : Config)
    (hC : config.continueOnError = true)
    (h : (shouldProcessFile (fsm p) p config).shouldProcess = true) :
    ∃ r : FileRecord, processFile stripC stripW fsm p config = .ok (some r)
      ∧ r.path = p := by
  unfold processFile
  dsimp only
  rw [h]
  rw [if_neg (by simp)]
  cases hs : (fsm p).statError with
  | some msg =>
    refine ⟨{ path := p, size := 0, error? := some msg,
              content := "[Error reading file: " ++ msg ++ "]" }, ?_, rfl⟩
    unfold handleProcessFileError
    rw [hC]
    rfl
  | none =>
    cases hh : (if config.includeFileHash then (fsm p).hash.map some else .ok none :
        Except String (Option String)) with
    | error msg =>
      refine ⟨{ path := p, size := 0, error? := some msg,
                content := "[Error reading file: " ++ msg ++ "]" }, ?_, rfl⟩
      unfold handleProcessFileError
      rw [hC]
      rfl
    | ok hash? =>
      cases hm : (if config.includeMimeType then (fsm p).mime.map some else .ok none :
          Except String (Option String)) with
      | error msg =>
        refine ⟨{ path := p, size := 0, error? := some msg,
                  content := "[Error reading file: " ++ msg ++ "]" }, ?_, rfl⟩
        unfold handleProcessFileError
        rw [hC]
        rfl
      | ok mime? =>
        refine ⟨_, rfl, ?_⟩
        by_cases hb : (if config.detectBinary then isBinaryFile p (fsm p) none
            else false) = true
        · rw [if_pos hb, processBinaryFile_path]
        · rw [if_neg hb, processTextFile_path]

theorem processChunk_paths (stripC stripW : List Char → List Char)
    (fsm : String → FsFile) (config : Config) (hC : config.continueOnError = true) :
    ∀ chunk : List String, ∃ rs : List FileRecord,
      processChunk stripC stripW fsm config chunk = .ok rs ∧
      rs.map (·.path) = chunk.filter
        (fun p => (shouldProcessFile (fsm p) p config).shouldProcess)
  | [] => ⟨[], rfl, rfl⟩
  | file :: rest => by
    obtain ⟨rs, hrs, hmap⟩ := processChunk_paths stripC stripW fsm config hC rest
    by_cases h : (shouldProcessFile (fsm file) file config).shouldProcess = true
    · obtain ⟨r, hr, hpath⟩ := processFile_accept stripC stripW fsm file config hC h
      refine ⟨r :: rs, ?_, ?_⟩
      · rw [processChunk, hr, hrs]
      · simp [List.filter_cons, h, hmap, hpath]
    · have h' : (shouldProcessFile (fsm file) file config).shouldProcess = false := by
        simpa using h
      refine ⟨rs, ?_, ?_⟩
      · rw [processChunk, processFile_skip stripC stripW fsm file config h', hrs]
      · simp [List.filter_cons, h', hmap]

theorem processChunksAll_paths (stripC stripW : List Char → List Char)
    (fsm : String → FsFile) (config : Config) (hC : config.continueOnError = true) :
    ∀ chunks : List (List String), ∃ rs : List FileRecord,
      processChunksAll stripC stripW fsm config chunks = .ok rs ∧
      rs.map (·.path) = chunks.flatten.filter
        (fun p => (shouldProcessFile (fsm p) p config).shouldProcess)
  | [] => ⟨[], rfl, rfl⟩
  | chunk :: rest => by
    obtain ⟨rs1, h1, m1⟩ := processChunk_paths stripC stripW fsm config hC chunk
    obtain ⟨rs2, h2, m2⟩ := processChunksAll_paths stripC stripW fsm config hC rest
    refine ⟨rs1 ++ rs2, ?_, ?_⟩
    · rw [processChunksAll, h1, h2]
    · simp [List.filter_append, m1, m2]

theorem chunkGo_flatten (size : Nat) :
    ∀ (fuel : Nat) (xs : List String), (chunkGo size fuel xs).flatten = xs := by
  intro fuel
  induction fuel with
  | zero =>
    intro xs
    cases xs <;> simp [chunkGo]
  | succ f ih =>
    intro xs
    cases xs with
    | nil => simp [chunkGo]
    | cons x rest =>
      simp only [chunkGo, List.flatten_cons]
      rw [ih]
      exact List.take_append_drop _ _

theorem chunkList_flatten (size : Nat) (xs : List String) :
    (chunkList size xs).flatten = xs :=
  chunkGo_flatten size xs.length xs

/-- `processFiles` under tolerated errors: it succeeds, and the paths of its
records are exactly the classifier-accepted discovered paths, in both modes. -/
theorem processFiles_paths (stripC stripW : List Char → List Char)
    (fsm : String → FsFile) (config : Config) (files : List String)
    (hC : config.continueOnError = true) :
    ∃ rs : List FileRecord,
      processFiles stripC stripW fsm config files = .ok rs ∧
      rs.map (·.path) = files.filter
        (fun p => (shouldProcessFile (fsm p) p config).shouldProcess) := by
  unfold processFiles
  by_cases h : (config.parallel && files.length > 1) = true
  · rw [if_pos h]
    obtain ⟨rs, h1, m1⟩ := processChunksAll_paths stripC stripW fsm config hC
      (chunkList (chunkSizeOf config files.length) files)
    exact ⟨rs, h1, by rw [m1, chunkList_flatten]⟩
  · rw [if_neg h]
    exact processChunk_paths stripC stripW fsm config hC files

theorem hexDigitChar_ne_nl (n : Nat) : hexDigitChar n ≠ '\n' := by
  unfold hexDigitChar
  split <;> decide

theorem toHexGo_mem (fuel : Nat) :
    ∀ (n : Nat) (acc : List Char) (c : Char), c ∈ toHexGo fuel n acc →
      c ∈ acc ∨ ∃ m, c = hexDigitChar m := by
  induction fuel with
  | zero =>
    intro n acc c hc
    exact Or.inl (by simpa [toHexGo] using hc)
  | succ f ih =>
    intro n acc c hc
    rw [toHexGo] at hc
    by_cases hn : n = 0
    · rw [if_pos hn] at hc
      exact Or.inl hc
    · rw [if_neg hn] at hc
      rcases ih _ _ c hc with h | h
      · rcases List.mem_cons.mp h with h1 | h1
        · exact Or.inr ⟨n % 16, h1⟩
        · exact Or.inl h1
      · exact Or.inr h

theorem toHex_ne_nl (n : Nat) : '\n' ∉ (toHex n).data := by
  unfold toHex
  by_cases hn : n = 0
  · rw [if_pos hn]
    decide
  · rw [if_neg hn]
    intro hmem
    rcases toHexGo_mem n n [] '\n' hmem with h | ⟨m, hm⟩
    · simp at h
    · exact hexDigitChar_ne_nl m hm.symm

theorem padStartZero_ne_nl (w : Nat) (s : String) (h : '\n' ∉ s.data) :
    '\n' ∉ (padStartZero w s).data := by
  unfold padStartZero
  intro hmem
  rcases List.mem_append.mp hmem with h1 | h1
  · exact absurd (List.mem_replicate.mp h1).2 (by decide)
  · exact h h1

theorem mem_joinWith (sep : Char) :
    ∀ (parts : List (List Char)) (c : Char), c ∈ joinWith sep parts →
      c = sep ∨ ∃ p ∈ parts, c ∈ p
  | [], c => by simp [joinWith]
  | [l], c => by
    intro h
    exact Or.inr ⟨l, by simp, by simpa [joinWith] using h⟩
  | l :: l2 :: ls, c => by
    intro h
    rw [joinWith_cons₂] at h
    rcases List.mem_append.mp h with h1 | h1
    · exact Or.inr ⟨l, by simp, h1⟩
    · rcases List.mem_cons.mp h1 with h2 | h2
      · exact Or.inl h2
      · rcases mem_joinWith sep (l2 :: ls) c h2 with h3 | ⟨p, hp, hcp⟩
        · exact Or.inl h3
        · exact Or.inr ⟨p, List.mem_cons_of_mem l hp, hcp⟩

theorem hexCells_ne_nl (bpl : Nat) (bs : List Nat) : '\n' ∉ (hexCells bpl bs).data := by
  intro hmem
  rcases mem_joinWith ' ' _ '\n' hmem with h | ⟨p, hp, hcp⟩
  · exact absurd h (by decide)
  · rcases List.mem_map.mp hp with ⟨j, hj, rfl⟩
    cases hg : bs.get? j with
    | some b =>
      rw [hg] at hcp
      exact padStartZero_ne_nl 2 (toHex b) (toHex_ne_nl b) hcp
    | none =>
      rw [hg] at hcp
      simp at hcp

theorem char_ofNat_toNat_of_printable (b : Nat) (h1 : 32 ≤ b) (h2 : b ≤ 126) :
    (Char.ofNat b).toNat = b := by
  unfold Char.ofNat
  rw [dif_pos]
  · rfl
  · exact Or.inl (by omega)

theorem asciiChar_ne_nl (b : Nat) : asciiChar b ≠ '\n' := by
  unfold asciiChar
  split
  · rename_i h
    intro hEq
    have hx := char_ofNat_toNat_of_printable b h.1 h.2
    rw [hEq] at hx
    have h10 : ('\n').toNat = 10 := by decide
    omega
  · decide

theorem asciiColumn_ne_nl (bs : List Nat) : '\n' ∉ (asciiColumn bs).data := by
  intro hmem
  rcases List.mem_map.mp hmem with ⟨b, _, hb⟩
  exact asciiChar_ne_nl b hb

theorem hexLine_ne_nl (bpl off : Nat) (bs : List Nat) :
    '\n' ∉ (hexLine bpl off bs).data := by
  unfold hexLine
  intro hmem
  simp only [string_data_append, List.mem_append] at hmem
  rcases hmem with ((((((h | h) | h) | h) | h) | h) | h)
  · exact padStartZero_ne_nl 8 (toHex off) (toHex_ne_nl off) h
  · simp at h
  · exact hexCells_ne_nl bpl bs h
  · simp at h
  · simp at h
  · exact asciiColumn_ne_nl bs h
  · simp at h

theorem take_lines_ne_nil {P : Nat} (hp : 0 < P) {l : List (List Char)}
    (hl : l ≠ []) : l.take P ≠ [] := by
  cases l with
  | nil => exact absurd rfl hl
  | cons x xs =>
    cases P with
    | zero => omega
    | succ p => simp [List.take]

theorem previewStep_lines_le (P : Nat) (hp : 0 < P) (c : List Char) :
    (splitOnChar '\n' (previewStep P c)).length ≤ P + 1 := by
  unfold previewStep
  rw [if_pos hp]
  dsimp only
  have hne : splitOnChar '\n' c ≠ [] := splitOnChar_ne_nil _ _
  have hfree : ∀ l ∈ splitOnChar '\n' c, '\n' ∉ l :=
    sep_not_mem_of_mem_splitOnChar _ _
  by_cases hlen : (splitOnChar '\n' c).length > P
  · rw [if_pos hlen]
    rw [← joinWith_append_single '\n' ((splitOnChar '\n' c).take P)
      "... [truncated]".data (take_lines_ne_nil hp hne)]
    rw [splitOnChar_joinWith '\n' _ (by simp) ?hfree2]
    case hfree2 =>
      intro l hl
      rcases List.mem_append.mp hl with h | h
      · exact hfree l (List.mem_of_mem_take h)
      · have hl2 : l = "... [truncated]".data := by simpa using h
        rw [hl2]
        decide
    rw [List.length_append, List.length_take]
    simp only [List.length_singleton]
    omega
  · rw [if_neg hlen]
    rw [List.take_of_length_le (by omega)]
    rw [splitOnChar_joinWith '\n' _ hne hfree]
    omega

theorem tailStep_of_le (preview tail : Nat) (c : List Char)
    (h : (splitOnChar '\n' c).length ≤ preview + tail) :
    tailStep preview tail c = c := by
  unfold tailStep
  by_cases ht : tail > 0
  · rw [if_pos ht]
    dsimp only
    rw [if_neg (by omega)]
  · rw [if_neg ht]

theorem tailStep_zero (preview : Nat) (c : List Char) : tailStep preview 0 c = c := by
  unfold tailStep
  rw [if_neg (by omega)]

theorem retryGo_calls_le (attempt : Nat → Except String α) :
    ∀ (fuel i : Nat), (retryGo attempt fuel i).2 ≤ i + fuel + 1 := by
  intro fuel
  induction fuel with
  | zero =>
    intro i
    rw [retryGo]
    cases attempt i <;> simp
  | succ f ih =>
    intro i
    rw [retryGo]
    cases attempt i with
    | ok v => simp
    | error e =>
      calc (retryGo attempt f (i + 1)).2 ≤ (i + 1) + f + 1 := ih (i + 1)
        _ ≤ i + (f + 1) + 1 := by omega

theorem retryGo_all_fail (attempt : Nat → Except String α) (errs : Nat → String) :
    ∀ (fuel i : Nat), (∀ j, i ≤ j → j ≤ i + fuel → attempt j = .error (errs j)) →
      retryGo attempt fuel i = (.error (errs (i + fuel)), i + fuel + 1) := by
  intro fuel
  induction fuel with
  | zero =>
    intro i h
    rw [retryGo, h i (Nat.le_refl i) (by omega)]
    rfl
  | succ f ih =>
    intro i h
    rw [retryGo, h i (Nat.le_refl i) (by omega)]
    dsimp only
    have harith : i + 1 + f = i + (f + 1) := by omega
    rw [ih (i + 1) (fun j hj1 hj2 => h j (by omega) (by omega)), harith]

theorem retryGo_first_success (attempt : Nat → Except String α) (v : α) :
    ∀ (fuel i k : Nat), i ≤ k → k ≤ i + fuel →
      (∀ j, i ≤ j → j < k → ∃ e, attempt j = .error e) → attempt k = .ok v →
      retryGo attempt fuel i = (.ok v, k + 1) := by
  intro fuel
  induction fuel with
  | zero =>
    intro i k h1 h2 _ hk
    have hik : k = i := by omega
    subst hik
    rw [retryGo, hk]
  | succ f ih =>
    intro i k h1 h2 hfail hk
    by_cases hik : k = i
    · subst hik
      rw [retryGo, hk]
    · obtain ⟨e, he⟩ := hfail i (Nat.le_refl i) (by omega)
      rw [retryGo, he]
      exact ih (i + 1) k (by omega) (by omega)
        (fun j hj1 hj2 => hfail j (by omega) hj2) hk

/-! ### Claim theorems -/

/-- Claim C6: the Classifier's size filter is strict at both ends
(src/utils/file-detection.js:109-122) — with the empty-file and binary checks
disabled so the size filter alone decides, a file of exactly `minFileSize` or
exactly `maxFileSize` bytes is accepted, a file one byte smaller than
`minFileSize` is rejected, and a file one byte larger than `maxFileSize` is
rejected. -/
theorem claim_C6_size_filter_strict_bounds (config : Config) (filePath : String)
    (hEmpty : config.skipEmptyFiles = false) (hBin : config.detectBinary = false)
    (hBounds : config.minFileSize ≤ config.maxFileSize) :
    (shouldProcessFile { size := config.minFileSize } filePath config).shouldProcess
        = true ∧
    (shouldProcessFile { size := config.maxFileSize } filePath config).shouldProcess
        = true ∧
    (∀ s, s + 1 = config.minFileSize →
      (shouldProcessFile { size := s } filePath config).shouldProcess = false) ∧
    (shouldProcessFile { size := config.maxFileSize + 1 } filePath config).shouldProcess
        = false := by
  refine ⟨?_, ?_, ?_, ?_⟩
  · unfold shouldProcessFile
    dsimp only
    rw [if_neg (by simp [hEmpty]), if_neg (by omega), if_neg (by omega),
      if_neg (by simp [hBin])]
  · unfold shouldProcessFile
    dsimp only
    rw [if_neg (by simp [hEmpty]), if_neg (by omega), if_neg (by omega),
      if_neg (by simp [hBin])]
  · intro s hs
    unfold shouldProcessFile
    dsimp only
    rw [if_neg (by simp [hEmpty]), if_pos (by omega)]
  · unfold shouldProcessFile
    dsimp only
    rw [if_neg (by simp [hEmpty]), if_neg (by omega), if_pos (by omega)]

theorem claim_C6_size_filter_strict_bounds_witness :
    (shouldProcessFile { size := 2 } "a.txt"
      { minFileSize := 2, maxFileSize := 5, skipEmptyFiles := false
        detectBinary := false }).shouldProcess = true ∧
    (shouldProcessFile { size := 5 } "a.txt"
      { minFileSize := 2, maxFileSize := 5, skipEmptyFiles := false
        detectBinary := false }).shouldProcess = true ∧
    (shouldProcessFile { size := 1 } "a.txt"
      { minFileSize := 2, maxFileSize := 5, skipEmptyFiles := false
        detectBinary := false }).shouldProcess = false ∧
    (shouldProcessFile { size := 6 } "a.txt"
      { minFileSize := 2, maxFileSize := 5, skipEmptyFiles := false
        detectBinary := false }).shouldProcess = false := by
  have h := claim_C6_size_filter_strict_bounds
    { minFileSize := 2, maxFileSize := 5, skipEmptyFiles := false
      detectBinary := false } "a.txt" rfl rfl (by decide)
  exact ⟨h.1, h.2.1, h.2.2.1 1 rfl, h.2.2.2⟩

/-- Claim C8: `createHexdump` renders 16 bytes per line — 8-hex-digit
zero-padded offset, space-separated 2-hex-digit cells with 2-space placeholders
for missing trailing bytes, and a `|...|`-delimited ASCII column showing bytes
32–126 as their character and everything else as `.` (the `hexLine` layout);
for every 17-byte buffer the hexdump has exactly 2 lines, the second line's
offset field is `00000010`, and the ASCII column of the first line has exactly
16 characters. -/
theorem claim_C8_hexdump_layout (buffer : List Nat) (h : buffer.length = 17) :
    (splitOnChar '\n' (createHexdump buffer 16).data).length = 2 ∧
    ((hexdumpLines buffer 16).getD 1 "").data.take 8 = "00000010".data ∧
    (∃ s a : String, (hexdumpLines buffer 16).getD 0 "" = s ++ " |" ++ a ++ "|"
      ∧ a.length = 16) := by
  have hlines : hexdumpLines buffer 16 =
      [hexLine 16 0 (buffer.take 16), hexLine 16 16 ((buffer.drop 16).take 16)] := by
    unfold hexdumpLines
    rw [h]
    rfl
  refine ⟨?_, ?_, ?_⟩
  · show (splitOnChar '\n'
      (joinWith '\n' ((hexdumpLines buffer 16).map (·.data)))).length = 2
    rw [hlines]
    rw [splitOnChar_joinWith '\n' _ (by simp) ?hfree]
    case hfree =>
      intro l hl
      simp only [List.map_cons, List.map_nil, List.mem_cons,
        List.not_mem_nil, or_false] at hl
      rcases hl with h1 | h1
      · exact h1 ▸ hexLine_ne_nl 16 0 (buffer.take 16)
      · exact h1 ▸ hexLine_ne_nl 16 16 ((buffer.drop 16).take 16)
    simp
  · rw [hlines]
    show (hexLine 16 16 ((buffer.drop 16).take 16)).data.take 8 = "00000010".data
    unfold hexLine
    simp only [string_data_append, List.append_assoc]
    have hpad : (padStartZero 8 (toHex 16)).data = "00000010".data := by decide
    rw [hpad]
    rw [List.take_append_eq_append_take]
    have h2 : List.take 8 ("00000010".data) = "00000010".data := by decide
    have h3 : (8 : Nat) - ("00000010".data).length = 0 := by decide
    rw [h2, h3, List.take_zero, List.append_nil]
  · rw [hlines]
    refine ⟨padStartZero 8 (toHex 0) ++ ": " ++ hexCells 16 (buffer.take 16) ++ " ",
      asciiColumn (buffer.take 16), rfl, ?_⟩
    have hmap : (asciiColumn (buffer.take 16)).length
        = ((buffer.take 16).map asciiChar).length := rfl
    rw [hmap, List.length_map, List.length_take, h]
    decide

theorem claim_C8_hexdump_layout_witness :
    (splitOnChar '\n' (createHexdump (List.range 17) 16).data).length = 2 ∧
    ((hexdumpLines (List.range 17) 16).getD 1 "").data.take 8 = "00000010".data ∧
    (∃ s a : String,
      (hexdumpLines (List.range 17) 16).getD 0 "" = s ++ " |" ++ a ++ "|"
      ∧ a.length = 16) :=
  claim_C8_hexdump_layout (List.range 17) (by decide)

/-- Claim C10: the CLI retry wrapper (src/cli/index.js:384-413) invokes the
pipeline at most `1 + retryCount` times, returns the first successful result,
and surfaces the last error after exhausting retries; in particular, for a
pipeline failing exactly twice and then succeeding with `retryCount = 3`, the
wrapper returns the success and the pipeline is invoked exactly 3 times.  (The
fixed `retryDelay` wait between attempts is real-time behavior not modeled.) -/
theorem claim_C10_retry_wrapper {α : Type} (attempt : Nat → Except String α)
    (retryCount : Nat) :
    processWithRetryCalls attempt retryCount ≤ retryCount + 1 ∧
    (∀ errs : Nat → String, (∀ i, i ≤ retryCount → attempt i = .error (errs i)) →
      processWithRetry attempt retryCount = .error (errs retryCount)) ∧
    (∀ v k, k ≤ retryCount → (∀ j, j < k → ∃ e, attempt j = .error e) →
      attempt k = .ok v →
      processWithRetry attempt retryCount = .ok v ∧
      processWithRetryCalls attempt retryCount = k + 1) ∧
    (∀ e0 e1 v, retryCount = 3 → attempt 0 = .error e0 → attempt 1 = .error e1 →
      attempt 2 = .ok v →
      processWithRetry attempt retryCount = .ok v ∧
      processWithRetryCalls attempt retryCount = 3) := by
  refine ⟨?_, ?_, ?_, ?_⟩
  · have hle := retryGo_calls_le attempt retryCount 0
    unfold processWithRetryCalls
    omega
  · intro errs hall
    unfold processWithRetry
    rw [retryGo_all_fail attempt errs retryCount 0 (fun j hj1 hj2 => hall j (by omega))]
    simp
  · intro v k hk hfail hsucc
    have hgo := retryGo_first_success attempt v retryCount 0 k (by omega) (by omega)
      (fun j hj1 hj2 => hfail j hj2) hsucc
    unfold processWithRetry processWithRetryCalls
    rw [hgo]
    exact ⟨rfl, rfl⟩
  · intro e0 e1 v hrc h0 h1 h2
    subst hrc
    have hgo := retryGo_first_success attempt v 3 0 2 (by omega) (by omega)
      (fun j hj1 hj2 => by
        interval_cases j
        · exact ⟨e0, h0⟩
        · exact ⟨e1, h1⟩) h2
    unfold processWithRetry processWithRetryCalls
    rw [hgo]
    exact ⟨rfl, rfl⟩

theorem claim_C10_retry_wrapper_witness :
    processWithRetry
      (fun i => if i < 2 then Except.error "boom" else Except.ok (42 : Nat)) 3
      = Except.ok 42 ∧
    processWithRetryCalls
      (fun i => if i < 2 then Except.error "boom" else Except.ok (42 : Nat)) 3 = 3 :=
  (claim_C10_retry_wrapper
    (fun i => if i < 2 then Except.error "boom" else Except.ok (42 : Nat)) 3).2.2.2
    "boom" "boom" 42 rfl rfl rfl rfl

/-- Claim C2 (code bug): the pipeline dispatch `formatOutput`
(src/core/processor.js:661-675) switches only on `"text"`, `"json"`,
`"markdown"` and `"tree"` (case-insensitively); `outputFormat` values `"csv"`,
`"html"` and `"xml"` fall into the default branch and are rendered by the
*text* formatter, contradicting the claim and the repository's own e2e tests
(tests/e2e/formats.test.js asserts `processDirectory` with those formats
produces CSV/HTML/XML output).  With four distinct constant renderers, the
dispatch output for all three values equals the text renderer's output, while
the four recognized names (including mixed case) reach their renderers. -/
theorem claim_C2_format_dispatch_missing_csv_html_xml :
    formatOutput (fun _ _ => "TEXT") (fun _ _ => "JSON") (fun _ _ => "MARKDOWN")
      (fun _ _ => "TREE") [] { outputFormat := "csv" } = "TEXT" ∧
    formatOutput (fun _ _ => "TEXT") (fun _ _ => "JSON") (fun _ _ => "MARKDOWN")
      (fun _ _ => "TREE") [] { outputFormat := "html" } = "TEXT" ∧
    formatOutput (fun _ _ => "TEXT") (fun _ _ => "JSON") (fun _ _ => "MARKDOWN")
      (fun _ _ => "TREE") [] { outputFormat := "xml" } = "TEXT" ∧
    formatOutput (fun _ _ => "TEXT") (fun _ _ => "JSON") (fun _ _ => "MARKDOWN")
      (fun _ _ => "TREE") [] { outputFormat := "Json" } = "JSON" ∧
    formatOutput (fun _ _ => "TEXT") (fun _ _ => "JSON") (fun _ _ => "MARKDOWN")
      (fun _ _ => "TREE") [] { outputFormat := "TREE" } = "TREE" :=
  ⟨rfl, rfl, rfl, rfl, rfl⟩

/-- Claim C3 (code bug): `processFile` calls `isBinaryFile(filePath)` without
the `config` argument (src/core/processor.js:134), so the extension fast-path
throws on the undefined config and the function's catch returns `false`; hence
an accepted file whose extension is in `binaryFileExtensions` (here `png`, with
`skipBinaryFiles` disabled so it is accepted) still gets `isBinary = false` and
is processed by the text branch, contradicting the claim, the function's
documented contract, and the e2e test expecting `isBinary: true`.  The
conjuncts evaluate: the extension is in the configured binary list, the
correctly-invoked detector says binary, the file is accepted, and yet the built
record has `isBinary? = some false` with text-branch content. -/
theorem claim_C3_isBinary_missing_config_argument :
    (({ skipBinaryFiles := false } : Config).binaryFileExtensions.contains "png")
        = true ∧
    isBinaryFile "photo.png" { size := 4, decoded := .ok "PNGDATA" }
      (some { skipBinaryFiles := false }) = true ∧
    (shouldProcessFile { size := 4, decoded := .ok "PNGDATA" } "photo.png"
      { skipBinaryFiles := false }).shouldProcess = true ∧
    processFile id id (fun _ => { size := 4, decoded := .ok "PNGDATA" }) "photo.png"
      { skipBinaryFiles := false }
      = .ok (some { path := "photo.png", size := 4, modified? := some 0,
                    created? := some 0, extension? := some "png",
                    isBinary? := some false, content := "PNGDATA" }) :=
  ⟨rfl, rfl, rfl, rfl⟩

/-- Claim C4 (code bug): a content-read failure is caught inside
`processTextFile` (src/core/processor.js:262-266), which populates `error` and
a placeholder `content` but keeps the stat size and never consults
`continueOnError`; so with `continueOnError = false` the failure does *not*
propagate (contradicting the claim and the repo's own test "should throw an
error when continueOnError is false"), and the record's `size` is the stat size
(5), not 0.  The conjuncts evaluate `processFile` and a whole
sequential-processing call on a file whose read fails. -/
theorem claim_C4_read_error_not_gated_by_continueOnError :
    ({ continueOnError := false } : Config).continueOnError = false ∧
    processFile id id (fun _ => { size := 5, decoded := .error "Mock read error" })
      "error-case.js" { continueOnError := false }
      = .ok (some { path := "error-case.js", size := 5, modified? := some 0,
                    created? := some 0, extension? := some "js",
                    isBinary? := some false,
                    content := "[Error reading file: Mock read error]",
                    error? := some "Mock read error" }) ∧
    processChunk id id (fun _ => { size := 5, decoded := .error "Mock read error" })
      { continueOnError := false } ["error-case.js"]
      = .ok [{ path := "error-case.js", size := 5, modified? := some 0,
               created? := some 0, extension? := some "js", isBinary? := some false,
               content := "[Error reading file: Mock read error]",
               error? := some "Mock read error" }] :=
  ⟨rfl, rfl, rfl⟩

/-- Claim C9 (code bug): in `groupFiles` the `language` branch evaluates
`languageMap(extA)` (src/core/processor.js:642), but `languageMap` is not
imported into processor.js (and the `languageMap` that
src/config/language-map.js exports is an object, not a function), so the sort
comparator throws a ReferenceError as soon as it is invoked — i.e. for every
record list with at least two records; a single-record list survives only
because the comparator is never called. -/
theorem claim_C9_language_grouping_throws :
    groupFiles { fileGrouping := "language" } [{ path := "a.js" }, { path := "b.py" }]
      = .error "ReferenceError: languageMap is not defined" ∧
    groupFiles { fileGrouping := "language" } [{ path := "a.js" }]
      = .ok [{ path := "a.js" }] :=
  ⟨rfl, rfl⟩

/-- Claim C7 counterexample: with `fileContentPreview = 1` and
`fileContentTail = 1` on a 5-line file, the claim predicts the middle-section
marker and the last line to be appended (5 > 1 + 1), but the transformation
yields only the preview truncation: the tail step re-splits the already
truncated content (2 lines, not more than preview + tail) and never fires. -/
theorem claim_C7_tail_counterexample :
    applyContentTransformations id id
      { fileContentPreview := 1, fileContentTail := 1 } "l1\nl2\nl3\nl4\nl5"
      = "l1\n... [truncated]" ∧
    ("l1\n... [truncated]" : String)
      ≠ "l1\n... [truncated]\n... [truncated middle section]\nl5" :=
  ⟨rfl, by decide⟩

/-- Claim C7 (amended): when `fileContentPreview > 0` the content is reduced to
its first N lines with a `"... [truncated]"` marker appended when more lines
existed; the subsequent tail step re-splits that already-truncated content
(at most N+1 lines), so its `lines > preview + tail` condition never holds and,
for any positive `fileContentTail`, no middle-section marker or tail lines are
ever appended — the result is the same as with `fileContentTail = 0`.
(Tail windowing can only take effect when `fileContentPreview` is 0.) -/
theorem claim_C7_amended_tail_never_fires_after_preview
    (stripC stripW : List Char → List Char) (config : Config) (content : String)
    (hp : 0 < config.fileContentPreview) (ht : 0 < config.fileContentTail)
    (hc : config.commentStripping = false) (hw : config.stripWhitespace = false) :
    applyContentTransformations stripC stripW config content
      = applyContentTransformations stripC stripW
          { config with fileContentTail := 0 } content ∧
    (splitOnChar '\n' (previewStep config.fileContentPreview
        (truncateStep config.truncateLineLength content.data))).length
      ≤ config.fileContentPreview + 1 := by
  have hb := previewStep_lines_le config.fileContentPreview hp
    (truncateStep config.truncateLineLength content.data)
  refine ⟨?_, hb⟩
  unfold applyContentTransformations applyCT
  dsimp only
  rw [hc, hw]
  simp only [Bool.false_eq_true, if_false]
  rw [tailStep_of_le _ _ _ (by omega), tailStep_zero]

theorem claim_C7_amended_tail_never_fires_after_preview_witness :
    applyContentTransformations id id
      { fileContentPreview := 2, fileContentTail := 3 } "a\nb\nc\nd\ne\nf"
      = applyContentTransformations id id
          { fileContentPreview := 2, fileContentTail := 0 } "a\nb\nc\nd\ne\nf" ∧
    (splitOnChar '\n' (previewStep 2 (truncateStep 0 ("a\nb\nc\nd\ne\nf" : String).data))).length
      ≤ 2 + 1 :=
  claim_C7_amended_tail_never_fires_after_preview id id
    { fileContentPreview := 2, fileContentTail := 3 } "a\nb\nc\nd\ne\nf"
    (by decide) (by decide) rfl rfl

/-- Claim C1 counterexample: with `respectGitignore = false`, a path that the
loaded ignore predicate matches (here via the built-in `node_modules` pattern)
is *not* excluded from the discovered file list — the gate
`config.respectGitignore && ig.ignores(file)` (src/core/processor.js:421) never
consults the predicate.  `igM` instantiates the external gitignore matcher,
which ignores the path exactly because the loaded pattern list contains the
built-in `"node_modules"` entry. -/
theorem claim_C1_counterexample :
    (fun (pats : List String) (p : String) =>
        pats.contains "node_modules" && p == "node_modules/a.js")
      (loadIgnorePatterns {} { respectGitignore := false }) "node_modules/a.js"
      = true ∧
    "node_modules/a.js" ∈ findMatchingFiles (fun pat _ => pat == "**/*")
      (fun pats p => pats.contains "node_modules" && p == "node_modules/a.js")
      (fun _ => {}) ["node_modules/a.js"] {} { respectGitignore := false } := by
  refine ⟨by decide, ?_⟩
  rw [mem_findMatchingFiles]
  refine ⟨?_, by decide, by decide⟩
  unfold globbedFiles
  rw [mem_dedupFirst]
  decide

/-- Claim C1 (amended): `loadIgnorePatterns` always unions the configured
built-in `ignorePatterns` into the ignore pattern list (regardless of the
gitignore-respect flags), and a path matching an `excludePatterns` entry is
always excluded — but as a glob-level exclusion during expansion, not through
the ignore predicate; the ignore predicate itself is consulted only when
`respectGitignore` is true, so with `respectGitignore = false` the discovered
list is entirely independent of it and paths matching the built-in ignore
patterns are not excluded. -/
theorem claim_C1_amended_ignore_gating (globMatch : String → String → Bool)
    (igM igM' : List String → String → Bool) (fsm : String → FsFile)
    (allFiles : List String) (dirFiles : IgnoreFiles) (config : Config)
    (hg : config.respectGitignore = false) :
    (∀ p ∈ config.ignorePatterns, p ∈ loadIgnorePatterns dirFiles config) ∧
    (∀ file e, e ∈ config.excludePatterns → globMatch e file = true →
      file ∉ findMatchingFiles globMatch igM fsm allFiles dirFiles config) ∧
    (findMatchingFiles globMatch igM fsm allFiles dirFiles config
      = findMatchingFiles globMatch igM' fsm allFiles dirFiles config) := by
  refine ⟨?_, ?_, ?_⟩
  · intro p hp
    unfold loadIgnorePatterns
    simp [hp]
  · intro file e he hm hmem
    rw [mem_findMatchingFiles] at hmem
    obtain ⟨h1, _, _⟩ := hmem
    unfold globbedFiles at h1
    rw [mem_dedupFirst, List.mem_flatten] at h1
    obtain ⟨l, hl, hfl⟩ := h1
    rw [List.mem_map] at hl
    obtain ⟨pattern, hpat, rfl⟩ := hl
    unfold globExpand at hfl
    rw [List.mem_filter] at hfl
    have h2 := hfl.2
    rw [Bool.and_eq_true, Bool.not_eq_true'] at h2
    have h4 : config.excludePatterns.any (fun ep => globMatch ep file) = true :=
      List.any_eq_true.mpr ⟨e, he, hm⟩
    rw [h2.2] at h4
    exact Bool.false_ne_true h4
  · unfold findMatchingFiles discoveredPreSort
    simp [hg]

theorem claim_C1_amended_ignore_gating_witness :
    (∀ p ∈ ({ respectGitignore := false } : Config).ignorePatterns,
      p ∈ loadIgnorePatterns {} { respectGitignore := false }) ∧
    (∀ file e, e ∈ ({ respectGitignore := false } : Config).excludePatterns →
      (fun (_ : String) (_ : String) => true) e file = true →
      file ∉ findMatchingFiles (fun _ _ => true) (fun _ _ => true) (fun _ => {})
        ["a.txt"] {} { respectGitignore := false }) ∧
    (findMatchingFiles (fun _ _ => true) (fun _ _ => true) (fun _ => {})
        ["a.txt"] {} { respectGitignore := false }
      = findMatchingFiles (fun _ _ => true) (fun _ _ => false) (fun _ => {})
        ["a.txt"] {} { respectGitignore := false }) :=
  claim_C1_amended_ignore_gating (fun _ _ => true) (fun _ _ => true)
    (fun _ _ => false) (fun _ => {}) ["a.txt"] {} { respectGitignore := false } rfl

/-- Claim C5: for every directory tree, matchers, filesystem behavior and
config with errors tolerated, in both sequential and parallel mode, processing
succeeds and the list of `path` values of the records is exactly the discovered
list filtered by the Classifier's accept decision — so the set of output paths
is (glob-expanded deduplicated paths) minus (paths dropped by the
ignore-predicate/depth filter) minus (Classifier-rejected paths); every
non-rejected discovered file contributes exactly one record, rejected files
contribute none, and no path appears twice. -/
theorem claim_C5_set_completeness (globMatch : String → String → Bool)
    (igM : List String → String → Bool) (fsm : String → FsFile)
    (allFiles : List String) (dirFiles : IgnoreFiles) (config : Config)
    (stripC stripW : List Char → List Char)
    (hC : config.continueOnError = true) :
    ∃ seqRecords parRecords : List FileRecord,
      processFiles stripC stripW fsm { config with parallel := false }
        (findMatchingFiles globMatch igM fsm allFiles dirFiles config)
        = .ok seqRecords ∧
      processFiles stripC stripW fsm { config with parallel := true }
        (findMatchingFiles globMatch igM fsm allFiles dirFiles config)
        = .ok parRecords ∧
      seqRecords.map (·.path)
        = (findMatchingFiles globMatch igM fsm allFiles dirFiles config).filter
          (fun p => (shouldProcessFile (fsm p) p config).shouldProcess) ∧
      parRecords.map (·.path) = seqRecords.map (·.path) ∧
      (seqRecords.map (·.path)).Nodup ∧
      (∀ p, p ∈ parRecords.map (·.path) ↔
        (p ∈ globbedFiles globMatch allFiles config
          ∧ (config.respectGitignore && igM (loadIgnorePatterns dirFiles config) p)
              = false
          ∧ exceedsMaxDepth config.maxDepth (pathDepth p) = false
          ∧ (shouldProcessFile (fsm p) p config).shouldProcess = true)) := by
  have hC1 : ({ config with parallel := false } : Config).continueOnError = true := hC
  have hC2 : ({ config with parallel := true } : Config).continueOnError = true := hC
  obtain ⟨seqR, hseq, mseq⟩ := processFiles_paths stripC stripW fsm
    { config with parallel := false }
    (findMatchingFiles globMatch igM fsm allFiles dirFiles config) hC1
  obtain ⟨parR, hpar, mpar⟩ := processFiles_paths stripC stripW fsm
    { config with parallel := true }
    (findMatchingFiles globMatch igM fsm allFiles dirFiles config) hC2
  have mseq' : seqR.map (·.path)
      = (findMatchingFiles globMatch igM fsm allFiles dirFiles config).filter
        (fun p => (shouldProcessFile (fsm p) p config).shouldProcess) := mseq
  have mpar' : parR.map (·.path)
      = (findMatchingFiles globMatch igM fsm allFiles dirFiles config).filter
        (fun p => (shouldProcessFile (fsm p) p config).shouldProcess) := mpar
  refine ⟨seqR, parR, hseq, hpar, mseq', mpar'.trans mseq'.symm, ?_, ?_⟩
  · rw [mseq']
    exact (nodup_findMatchingFiles globMatch igM fsm allFiles dirFiles config).filter _
  · intro p
    rw [mpar', List.mem_filter, mem_findMatchingFiles]
    tauto

theorem claim_C5_set_completeness_witness :
    ∃ seqRecords parRecords : List FileRecord,
      processFiles id id (fun _ => { size := 3, decoded := .ok "x" })
        ({ ({ continueOnError := true } : Config) with parallel := false })
        (findMatchingFiles (fun _ _ => true) (fun _ _ => false)
          (fun _ => { size := 3, decoded := .ok "x" }) ["a.txt", "b.txt"] {}
          { continueOnError := true })
        = .ok seqRecords ∧
      processFiles id id (fun _ => { size := 3, decoded := .ok "x" })
        ({ ({ continueOnError := true } : Config) with parallel := true })
        (findMatchingFiles (fun _ _ => true) (fun _ _ => false)
          (fun _ => { size := 3, decoded := .ok "x" }) ["a.txt", "b.txt"] {}
          { continueOnError := true })
        = .ok parRecords ∧
      seqRecords.map (·.path)
        = (findMatchingFiles (fun _ _ => true) (fun _ _ => false)
            (fun _ => { size := 3, decoded := .ok "x" }) ["a.txt", "b.txt"] {}
            { continueOnError := true }).filter
          (fun p => (shouldProcessFile ({ size := 3, decoded := .ok "x" } : FsFile) p
            { continueOnError := true }).shouldProcess) ∧
      parRecords.map (·.path) = seqRecords.map (·.path) ∧
      (seqRecords.map (·.path)).Nodup ∧
      (∀ p, p ∈ parRecords.map (·.path) ↔
        (p ∈ globbedFiles (fun _ _ => true) ["a.txt", "b.txt"]
            { continueOnError := true }
          ∧ (({ continueOnError := true } : Config).respectGitignore &&
              (fun (_ : List String) (_ : String) => false)
                (loadIgnorePatterns {} { continueOnError := true }) p) = false
          ∧ exceedsMaxDepth ({ continueOnError := true } : Config).maxDepth
              (pathDepth p) = false
          ∧ (shouldProcessFile ({ size := 3, decoded := .ok "x" } : FsFile) p
              { continueOnError := true }).shouldProcess = true)) :=
  claim_C5_set_completeness (fun _ _ => true) (fun _ _ => false)
    (fun _ => { size := 3, decoded := .ok "x" }) ["a.txt", "b.txt"] {}
    { continueOnError := true } id id rfl

end CodebaseDigest
